import Mathlib

/-!
Verification of the `jsonpath` package (`src/jsonpath/jsp.py`) against its
specification.  The Python module is embedded shallowly: the JSON value type
and slice descriptors become Lean inductives, the mutable
`JsonPathQueryRunner` becomes explicit state passing over a `Runner` record,
and Python exceptions (`ParseError`, `AssertionError` from `assert`
statements, `ValueError` from `int(...)` / zero-step slicing) become an
`Except Err` result.  Numeric leaves are modelled as `Int` (the engine never
inspects numeric values, only `dict` / `list` structure, so `float` leaves
are observationally identical to `int` leaves for every operation the module
performs); `str.isnumeric` is modelled as ASCII `Char.isDigit` (all paths
considered here are ASCII).
-/

namespace JsonPath

/-- The `Json` value union of `jsp.py`:
`Json = t.Union[None, int, float, t.Dict[str, "Json"], t.List["Json"]]`.
Objects are insertion-ordered key/value sequences (Python `dict` preserves
insertion order, which the module relies on for wildcard output). -/
inductive Json where
  | null
  | num (n : Int)
  | obj (members : List (String × Json))
  | arr (elems : List Json)

/-- Python exception kinds reachable from the module: `ParseError` (the
documented error type), `AssertionError` (from `assert` statements), and
`ValueError` (from `int("-")` and from slicing with step `0`). -/
inductive Err where
  | parseError (msg : String)
  | assertError (msg : String)
  | valueError (msg : String)
deriving Repr, DecidableEq

/-- A Python `slice(start, stop, step)` object, each field optional. -/
structure PySlice where
  start : Option Int
  stop : Option Int
  step : Option Int
deriving Repr, DecidableEq

/-- The union `t.Union[Key, Slice]` used for parsed selectors: a key is a
plain string (with `"*"` denoting the wildcard), otherwise a slice. -/
inductive KeyOrSlice where
  | key (k : String)
  | slice (s : PySlice)
deriving Repr, DecidableEq

/-! ### Sizes (termination measures for subtree traversal) -/

mutual

/-- Node count of a `Json` tree (used as a termination measure). -/
def Json.sz : Json → Nat
  | .null => 1
  | .num _ => 1
  | .obj ms => 1 + Json.szObj ms
  | .arr es => 1 + Json.szArr es

/-- Total size of a list of `Json` values. -/
def Json.szArr : List Json → Nat
  | [] => 0
  | e :: es => e.sz + Json.szArr es

/-- Total size of the values of an object member list. -/
def Json.szObj : List (String × Json) → Nat
  | [] => 0
  | (_, v) :: ms => v.sz + Json.szObj ms

end

/-! ### Python list slicing semantics

`xs[start:stop:step]` for Python lists, following CPython's
`PySlice_Unpack` / `PySlice_AdjustIndices`: a step of `0` raises
`ValueError`, omitted bounds default to the full extent in the step's
direction, negative indices count from the end, and out-of-range bounds are
clamped. -/

/-- Adjusted `(start, stop, step)` indices for a slice over a sequence of
length `len` (assuming `step ≠ 0`). -/
def sliceBounds (len : Int) (sl : PySlice) : Int × Int × Int :=
  let step := sl.step.getD 1
  let lower : Int := if step < 0 then -1 else 0
  let upper : Int := if step < 0 then len - 1 else len
  let start := match sl.start with
    | none => if step < 0 then upper else lower
    | some s => if s < 0 then max (s + len) lower else min s upper
  let stop := match sl.stop with
    | none => if step < 0 then lower else upper
    | some s => if s < 0 then max (s + len) lower else min s upper
  (start, stop, step)

/-- Elements at indices `i, i+step, ...` while `i < stop` (positive step). -/
def gatherUp (xs : List Json) : Int → Int → Int → Nat → List Json
  | _, _, _, 0 => []
  | i, stop, step, fuel + 1 =>
    if i < stop then xs.getD i.toNat Json.null :: gatherUp xs (i + step) stop step fuel
    else []

/-- Elements at indices `i, i+step, ...` while `i > stop` (negative step). -/
def gatherDown (xs : List Json) : Int → Int → Int → Nat → List Json
  | _, _, _, 0 => []
  | i, stop, step, fuel + 1 =>
    if stop < i then xs.getD i.toNat Json.null :: gatherDown xs (i + step) stop step fuel
    else []

/-- Python `xs[sl]` for a list `xs`: `ValueError` when the step is zero,
otherwise the selected elements in traversal order. -/
def pySeqSlice (xs : List Json) (sl : PySlice) : Except Err (List Json) :=
  if sl.step = some 0 then .error (.valueError "slice step cannot be zero")
  else
    match sliceBounds (Int.ofNat xs.length) sl with
    | (start, stop, step) =>
      if step < 0 then .ok (gatherDown xs start stop step (xs.length + 1))
      else .ok (gatherUp xs start stop step (xs.length + 1))

/-! ### Selector evaluation (`_apply_star`, `_apply_key`, `_apply_slice`) -/

/-- First-match lookup in an object member list (Python `d[k]` guarded by
`k in d`; `dict` keys are unique, so first match is the match). -/
def dictGet (ms : List (String × Json)) (k : String) : Option Json :=
  match ms with
  | [] => none
  | (k2, v) :: t => if k2 = k then some v else dictGet t k

/-- `_apply_star`: for each input, a dict contributes its values in key
order and a list contributes its items in index order; scalars contribute
nothing. -/
def _apply_star : List Json → List Json
  | [] => []
  | r :: rs =>
    (match r with
      | .obj ms => ms.map Prod.snd
      | .arr es => es
      | _ => []) ++ _apply_star rs

/-- `_apply_key`: `"*"` delegates to `_apply_star`; otherwise the
comprehension `[result[key] for result in results if isinstance(result,
dict) and key in result]` (membership test and lookup fused into one
association-list lookup). -/
def _apply_key (results : List Json) (key : String) : List Json :=
  if key = "*" then _apply_star results
  else
    results.foldr
      (fun r acc =>
        match r with
        | .obj ms =>
          match dictGet ms key with
          | some v => v :: acc
          | none => acc
        | _ => acc)
      []

/-- `_apply_slice`: the comprehension
`[value for result in results if isinstance(result, list) for value in
result[slice]]`; `result[slice]` can raise `ValueError` (zero step), which
aborts at the first list input. -/
def _apply_slice (results : List Json) (sl : PySlice) : Except Err (List Json) :=
  match results with
  | [] => .ok []
  | r :: rs =>
    match r with
    | .arr es => do
      let vs ← pySeqSlice es sl
      let rest ← _apply_slice rs sl
      .ok (vs ++ rest)
    | _ => _apply_slice rs sl

/-! ### Recursive descent (`_recursive_descent_key`)

The Python function keeps an explicit `todo` stack, popping from the end and
pushing children reversed; here the stack has its top at the head, so
Python's `todo.extend(children[::-1])` becomes prepending `children` and the
initial `[*(results[::-1])]` is `results` itself. -/

/-- One run of the `while` loop of `_recursive_descent_key`, with `todo` the
pending stack (top first) and `acc` the `new_results` accumulator.  The loop
is given as structural recursion on a fuel counter so that it computes by
kernel reduction; every iteration strictly shrinks `Json.szArr todo`
(a popped node is replaced by its strictly smaller children), so the fuel
`Json.szArr todo + 1` supplied by `_recursive_descent_key` never runs out. -/
def rdLoop (key : KeyOrSlice) : Nat → List Json → List Json → Except Err (List Json)
  | 0, _, _ => .error (.assertError "recursion fuel exhausted")
  | _ + 1, [], acc => .ok acc
  | fuel + 1, curr :: rest, acc =>
    if key = .key "*" then
      let nv := _apply_star [curr]
      rdLoop key fuel (nv ++ rest) (acc ++ nv)
    else
      match curr with
      | .obj ms =>
        let acc2 :=
          match key with
          | .key k =>
            match dictGet ms k with
            | some v => acc ++ [v]
            | none => acc
          | .slice _ => acc
        rdLoop key fuel (ms.map Prod.snd ++ rest) acc2
      | .arr es =>
        match key with
        | .slice sl => do
          let vs ← pySeqSlice es sl
          rdLoop key fuel (es ++ rest) (acc ++ vs)
        | .key _ => rdLoop key fuel (es ++ rest) acc
      | _ => rdLoop key fuel rest acc

/-- `_recursive_descent_key(results, key)`. -/
def _recursive_descent_key (results : List Json) (key : KeyOrSlice) :
    Except Err (List Json) :=
  rdLoop key (Json.szArr results + 1) results []

/-! ### The query runner (`JsonPathQueryRunner`)

The mutable dataclass becomes explicit state passing.  The cached `_curr`
field is maintained by `__post_init__` / `advance` to equal
`path[idx] if idx < len(path) else None`, so it is modelled as the derived
`curr?` below rather than stored. -/

/-- Single-quote character (written by code point to keep string literals
plain). -/
def squote : Char := Char.ofNat 39

/-- Double-quote character. -/
def dquote : Char := Char.ofNat 34

/-- State of `JsonPathQueryRunner`. -/
structure Runner where
  data : Json
  path : List Char
  idx : Nat
  results : List Json

/-- `at_end`. -/
def Runner.atEnd (r : Runner) : Bool := r.path.length ≤ r.idx

/-- The `_curr` cache: current character, or `none` at the end. -/
def Runner.curr? (r : Runner) : Option Char := r.path.get? r.idx

/-- `advance` (its `assert not self.at_end()` holds at every call site). -/
def Runner.advance (r : Runner) : Runner := { r with idx := r.idx + 1 }

/-- `match`: consume the current character iff it equals `c`. -/
def Runner.matchC (r : Runner) (c : Char) : Bool × Runner :=
  if r.curr? = some c then (true, r.advance) else (false, r)

/-- `prev`: `path[idx - 1]`. -/
def Runner.prevC (r : Runner) : Char := r.path.getD (r.idx - 1) ' '

/-- Message of `consume`: `Expected '<c>' <where> (pos <idx>).` -/
def expectedMsg (c : Char) (wh : String) (idx : Nat) : String :=
  "Expected \x27" ++ toString c ++ "\x27 " ++ wh ++ " (pos " ++ toString idx ++ ")."

/-- `consume`: require character `c`, else `ParseError`. -/
def Runner.consume (r : Runner) (c : Char) (wh : String) : Except Err Runner :=
  if r.atEnd then .error (.parseError (expectedMsg c wh r.idx))
  else
    match r.matchC c with
    | (true, r2) => .ok r2
    | (false, r2) => .error (.parseError (expectedMsg c wh r2.idx))

/-- The digit-scanning loop of `num`:
`while not self.at_end() and self.curr.isnumeric(): ...`
(`isnumeric` modelled as ASCII `Char.isDigit`).  Structural recursion on a
fuel counter for kernel computability; each iteration advances `idx`, so the
callers' fuel `path.length + 1` never runs out. -/
def scanNumChars : Nat → Runner → List Char × Runner
  | 0, r => ([], r)
  | fuel + 1, r =>
    match r.curr? with
    | some c =>
      if c.isDigit then
        match scanNumChars fuel r.advance with
        | (ds, r2) => (c :: ds, r2)
      else ([], r)
    | none => ([], r)

/-- The key-scanning loop of `key`:
`while not self.at_end() and self.curr not in [".", "["]:` with quote
characters forbidden inside a plain key. -/
def scanKeyChars : Nat → Runner → Except Err (List Char × Runner)
  | 0, r => .ok ([], r)
  | fuel + 1, r =>
    match r.curr? with
    | some c =>
      if c = '.' ∨ c = '[' then .ok ([], r)
      else if c = squote ∨ c = dquote then
        .error (.parseError ("Forbidden char in key value: \x27" ++ toString c ++ "\x27."))
      else do
        let pr ← scanKeyChars fuel r.advance
        .ok (c :: pr.1, pr.2)
    | none => .ok ([], r)

/-- The quoted-string scanning loop of `bracket`:
`while not self.at_end() and self._curr != quote_type: ...` -/
def scanQuoted (q : Char) : Nat → Runner → List Char × Runner
  | 0, r => ([], r)
  | fuel + 1, r =>
    match r.curr? with
    | some c =>
      if c = q then ([], r)
      else
        match scanQuoted q fuel r.advance with
        | (k, r2) => (c :: k, r2)
    | none => ([], r)

/-- Decimal value of a scanned digit run (`int("".join(k))` on digits). -/
def digitsVal (ds : List Char) : Nat :=
  ds.foldl (fun a c => a * 10 + (c.toNat - 48)) 0

/-- `num`: optional `-`, then a digit run; `None` when nothing was
consumed; a bare `-` makes `int("-")` raise `ValueError`. -/
def Runner.num (r : Runner) : Except Err (Option Int × Runner) :=
  match r.matchC '-' with
  | (neg, r1) =>
    match scanNumChars (r1.path.length + 1) r1 with
    | (ds, r2) =>
      if ds.isEmpty then
        if neg then
          .error (.valueError "invalid literal for int() with base 10: \x27-\x27")
        else .ok (none, r2)
      else
        let v : Int := Int.ofNat (digitsVal ds)
        .ok (some (if neg then -v else v), r2)

/-- `slice`: the slice grammar, including the bare-subscript normalization
(`start == -1` becomes `slice(-1, None, None)`, otherwise
`slice(start, start + 1, None)`). -/
def Runner.slice (r : Runner) : Except Err (Option PySlice × Runner) := do
  let pr ← r.num
  match pr with
  | (start, r1) =>
    match r1.matchC ':' with
    | (true, r2) => do
      let pr2 ← r2.num
      match pr2 with
      | (stop, r3) =>
        match r3.matchC ':' with
        | (true, r4) => do
          let pr3 ← r4.num
          .ok (some ⟨start, stop, pr3.1⟩, pr3.2)
        | (false, r4) => .ok (some ⟨start, stop, none⟩, r4)
    | (false, r2) =>
      match start with
      | none => .ok (none, r2)
      | some n =>
        if n = -1 then .ok (some ⟨some (-1), none, none⟩, r2)
        else .ok (some ⟨some n, some (n + 1), none⟩, r2)

/-- Message of `key` for a forbidden leading character. -/
def keyStartMsg (p : Char) (pos : Nat) : String :=
  "Key name can\x27t start with a \x27" ++ toString p ++ "\x27 (pos: " ++ toString pos ++ ")"

/-- `key`: a plain dot key, or a slice/subscript in dot position. -/
def Runner.key (r : Runner) : Except Err (KeyOrSlice × Runner) :=
  match r.curr? with
  | none => .error (.parseError "Expected key at the end of JSONPath.")
  | some c =>
    if c = '.' ∨ c = '$' ∨ c = '[' then
      let r1 := r.advance
      .error (.parseError (keyStartMsg r1.prevC (r1.idx + 1)))
    else do
      let pr ← r.slice
      match pr with
      | (some s, r1) => .ok (.slice s, r1)
      | (none, r1) => do
        let kr ← scanKeyChars (r1.path.length + 1) r1
        .ok (.key (String.mk kr.1), kr.2)

/-- The quoted branch of `bracket`: scan to the matching quote, require it
to be closed, then require `]`. -/
def bracketQuoted (r : Runner) (q : Char) : Except Err (KeyOrSlice × Runner) :=
  let strBeg := r.idx
  match scanQuoted q (r.path.length + 1) r with
  | (k, r1) =>
    if r1.atEnd then
      .error (.parseError ("String started at pos " ++ toString strBeg ++ " was not closed."))
    else
      match r1.matchC q with
      | (true, r2) => do
        let r3 ← r2.consume ']' ("after " ++ toString q)
        .ok (.key (String.mk k), r3)
      | (false, _) => .error (.assertError "Internal error.")

/-- `bracket`: `*`, a quoted key, or a numeric subscript / slice, each
closed by `]`. -/
def Runner.bracket (r : Runner) : Except Err (KeyOrSlice × Runner) :=
  match r.matchC '*' with
  | (true, r1) => do
    let r2 ← r1.consume ']' "after \x27*\x27"
    .ok (.key "*", r2)
  | (false, r1) =>
    match r1.matchC squote with
    | (true, r2) => bracketQuoted r2 squote
    | (false, r2) =>
      match r2.matchC dquote with
      | (true, r3) => bracketQuoted r3 dquote
      | (false, r3) => do
        let pr ← r3.slice
        match pr with
        | (none, r4) =>
          .error (.parseError
            ("Expected a subscript or a slice after \x27[\x27 (pos " ++ toString r4.idx ++ ")."))
        | (some s, r4) => do
          let r5 ← r4.consume ']' "after numerical subscript or slice"
          .ok (.slice s, r5)

/-- The selector dispatch that `child` performs after `key` / `bracket`:
a string key goes to `_apply_key`, a slice to `_apply_slice`. -/
def applyKeyOrSlice (k : KeyOrSlice) (r : Runner) : Except Err Runner :=
  match k with
  | .key s => .ok { r with results := _apply_key r.results s }
  | .slice sl => do
    let res ← _apply_slice r.results sl
    .ok { r with results := res }

/-- `recursive_descent`: parse the target (bracket or plain key) and run
the subtree search over the current result set. -/
def Runner.recursiveDescent (r : Runner) : Except Err Runner :=
  match r.matchC '[' with
  | (true, r1) => do
    let pr ← r1.bracket
    let res ← _recursive_descent_key pr.2.results pr.1
    .ok { pr.2 with results := res }
  | (false, r1) => do
    let pr ← r1.key
    let res ← _recursive_descent_key pr.2.results pr.1
    .ok { pr.2 with results := res }

/-- Message of the `assert False` at the end of `child`:
`Expected '.' or '[' at pos: <idx+1>, got: '<curr>'`. -/
def childAssertMsg (r : Runner) : String :=
  "Expected \x27.\x27 or \x27[\x27 at pos: " ++ toString (r.idx + 1) ++ ", got: \x27" ++
    (match r.curr? with
      | some c => toString c
      | none => "None") ++ "\x27"

/-- `child`: consume and apply one segment, then recurse.  The Python
method is self-recursive; each iteration consumes at least one character,
so the driver's fuel `len(path) + 1` is never exhausted. -/
def Runner.child : Nat → Runner → Except Err Runner
  | 0, _ => .error (.assertError "recursion fuel exhausted")
  | fuel + 1, r =>
    if r.atEnd then .ok r
    else
      match r.matchC '.' with
      | (true, r1) =>
        (match r1.matchC '.' with
        | (true, r2) => do
          let r3 ← r2.recursiveDescent
          Runner.child fuel r3
        | (false, r2) => do
          let kr ← r2.key
          let r3 ← applyKeyOrSlice kr.1 kr.2
          Runner.child fuel r3)
      | (false, r1) =>
        match r1.matchC '[' with
        | (true, r2) => do
          let kr ← r2.bracket
          let r3 ← applyKeyOrSlice kr.1 kr.2
          Runner.child fuel r3
        | (false, r2) => .error (.assertError (childAssertMsg r2))

/-- `JsonPathQueryRunner(data, path).query()`, returning the final runner
state. -/
def queryRun (data : Json) (path : String) : Except Err Runner := do
  let r0 : Runner := { data := data, path := path.data, idx := 0, results := [data] }
  let r1 ← r0.consume '$' "at the beginning of JSONPath"
  Runner.child (path.data.length + 1) r1

/-- Public `query(data, path)`. -/
def query (data : Json) (path : String) : Except Err (List Json) := do
  let r ← queryRun data path
  .ok r.results

/-- Public `parse(path)`: run the query over a placeholder empty object,
discarding the result. -/
def parse (path : String) : Except Err Unit := do
  let _ ← queryRun (Json.obj []) path
  .ok ()

/-! ### Specification-side descriptions

Independent restatements of behaviours from the specification, used to
compare the implementation against. -/

/-- What a `Key(name)` selector should contribute for one input value: the
value stored under `name` when the input is an object containing it,
nothing for arrays and scalars. -/
def keyMatches (k : String) (j : Json) : List Json :=
  match j with
  | .obj ms => (dictGet ms k).toList
  | _ => []

mutual

/-- Depth-first pre-order matches of a `RecursiveDescent(Key k)` segment
from one starting node: the node's own match (if it is an object containing
`k`) comes first, then the matches found in its descendants — an object's
descendants are its values in key order, an array's descendants are its
items in index order. -/
def preKey (k : String) : Json → List Json
  | .obj ms =>
    (match dictGet ms k with
      | some v => [v]
      | none => []) ++ preKeyObj k ms
  | .arr es => preKeyArr k es
  | _ => []

/-- `preKey` over the values of an object, in key order. -/
def preKeyObj (k : String) : List (String × Json) → List Json
  | [] => []
  | (_, v) :: t => preKey k v ++ preKeyObj k t

/-- `preKey` over a list of nodes, in order. -/
def preKeyArr (k : String) : List Json → List Json
  | [] => []
  | x :: t => preKey k x ++ preKeyArr k t

end

/-! ### Basic lemmas -/

theorem Json.sz_pos (j : Json) : 0 < j.sz := by
  cases j <;> simp [Json.sz]

theorem Json.szArr_append (xs ys : List Json) :
    Json.szArr (xs ++ ys) = Json.szArr xs + Json.szArr ys := by
  induction xs with
  | nil => simp [Json.szArr]
  | cons x xs ih => simp [Json.szArr, ih]; omega

theorem Json.szArr_map_snd (ms : List (String × Json)) :
    Json.szArr (ms.map Prod.snd) = Json.szObj ms := by
  induction ms with
  | nil => simp [Json.szArr, Json.szObj]
  | cons m ms ih =>
    obtain ⟨k, v⟩ := m
    simp [Json.szArr, Json.szObj, ih]

/-- The children a node pushes for descent are strictly smaller than the
node itself. -/
theorem star_single_sz_lt (j : Json) : Json.szArr (_apply_star [j]) < j.sz := by
  cases j <;>
    simp [_apply_star, Json.sz, Json.szArr, Json.szArr_append, Json.szArr_map_snd]

theorem curr_some_lt {r : Runner} {c : Char} (h : r.curr? = some c) :
    r.idx < r.path.length := by
  by_contra hc
  rw [Runner.curr?, List.get?_eq_none.mpr (by omega)] at h
  exact Option.noConfusion h

/-! ### Decimal numerals

Python `str(n)` for integers, used to state claims about paths that embed a
number, such as `$[n:n]`. -/

/-- Decimal digit character (`0`–`9`) for `d < 10`. -/
def digitChar (d : Nat) : Char := Char.ofNat (48 + d)

/-- Decimal digit characters of a natural number, most significant first
(the digits of Python `str(n)` for `n ≥ 0`). -/
def natDigits (n : Nat) : List Char :=
  if n < 10 then [digitChar n]
  else natDigits (n / 10) ++ [digitChar (n % 10)]
decreasing_by omega

/-- Character sequence of Python `str(n)` for an integer: an optional minus
sign followed by the decimal digits of the absolute value. -/
def intChars (n : Int) : List Char :=
  if n < 0 then '-' :: natDigits (-n).toNat else natDigits n.toNat

/-- Python `str(n)` as a string. -/
def intStr (n : Int) : String := String.mk (intChars n)

/-! ### Data-field preservation

The runner only ever reads `data`; each of these lemmas states that one
operation leaves the `data` field of the runner state unchanged. -/

theorem advance_data (r : Runner) : r.advance.data = r.data := rfl

theorem matchC_data (r : Runner) (c : Char) : ((r.matchC c).2).data = r.data := by
  unfold Runner.matchC
  split <;> rfl

theorem consume_data {r : Runner} {c : Char} {wh : String} {r2 : Runner}
    (h : r.consume c wh = .ok r2) : r2.data = r.data := by
  unfold Runner.consume at h
  split at h
  · exact absurd h (by simp)
  · split at h
    · rename_i x heq
      injection h with h2
      subst h2
      have h3 := matchC_data r c
      rw [heq] at h3
      exact h3
    · exact absurd h (by simp)

theorem scanNumChars_data : ∀ (fuel : Nat) (r : Runner),
    ((scanNumChars fuel r).2).data = r.data := by
  intro fuel
  induction fuel with
  | zero => intro r; rfl
  | succ f ih =>
    intro r
    unfold scanNumChars
    cases h : r.curr? with
    | none => rfl
    | some c =>
      by_cases hd : c.isDigit
      · rcases hsc : scanNumChars f r.advance with ⟨ds, r2⟩
        have h2 := ih r.advance
        rw [hsc] at h2
        simp [Runner.advance] at h2
        simp [hd, hsc, h2]
      · simp [hd]

theorem scanKeyChars_data : ∀ (fuel : Nat) {r : Runner} {pr : List Char × Runner},
    scanKeyChars fuel r = .ok pr → pr.2.data = r.data := by
  intro fuel
  induction fuel with
  | zero =>
    intro r pr h
    injection h with h2
    subst h2
    rfl
  | succ f ih =>
    intro r pr h
    unfold scanKeyChars at h
    cases hc : r.curr? with
    | none => rw [hc] at h; dsimp only at h; injection h with h2; subst h2; rfl
    | some c =>
      rw [hc] at h
      dsimp only at h
      split at h
      · injection h with h2; subst h2; rfl
      · split at h
        · exact absurd h (by simp)
        · cases hsc : scanKeyChars f r.advance with
          | error e => rw [hsc] at h; simp [Bind.bind, Except.bind] at h
          | ok pr2 =>
            rw [hsc] at h
            simp only [Bind.bind, Except.bind] at h
            injection h with h2
            subst h2
            exact @ih r.advance pr2 hsc

theorem scanQuoted_data (q : Char) : ∀ (fuel : Nat) (r : Runner),
    ((scanQuoted q fuel r).2).data = r.data := by
  intro fuel
  induction fuel with
  | zero => intro r; rfl
  | succ f ih =>
    intro r
    unfold scanQuoted
    cases h : r.curr? with
    | none => rfl
    | some c =>
      by_cases hq : c = q
      · simp [hq]
      · rcases hsc : scanQuoted q f r.advance with ⟨k, r2⟩
        have h2 := ih r.advance
        rw [hsc] at h2
        simp [Runner.advance] at h2
        simp [hq, hsc, h2]

theorem num_data {r : Runner} {pr : Option Int × Runner}
    (h : r.num = .ok pr) : pr.2.data = r.data := by
  unfold Runner.num at h
  rcases hm : r.matchC '-' with ⟨neg, r1⟩
  rw [hm] at h
  dsimp only at h
  rcases hsc : scanNumChars (r1.path.length + 1) r1 with ⟨ds, r2⟩
  rw [hsc] at h
  have hd1 : r1.data = r.data := by
    have h4 := matchC_data r '-'
    rw [hm] at h4
    exact h4
  have hd2 : r2.data = r1.data := by
    have h5 := scanNumChars_data (r1.path.length + 1) r1
    rw [hsc] at h5
    exact h5
  dsimp only at h
  split at h
  · split at h
    · exact absurd h (by simp)
    · injection h with h2; subst h2; rw [hd2, hd1]
  · injection h with h2; subst h2; rw [hd2, hd1]


theorem slice_data {r : Runner} {pr : Option PySlice × Runner}
    (h : r.slice = .ok pr) : pr.2.data = r.data := by
  unfold Runner.slice at h
  cases hn : r.num with
  | error e => rw [hn] at h; simp [Bind.bind, Except.bind] at h
  | ok pr1 =>
    rw [hn] at h
    simp only [Bind.bind, Except.bind] at h
    rcases pr1 with ⟨start, r1⟩
    have hd1 : r1.data = r.data := num_data hn
    dsimp only at h
    rcases hm1 : r1.matchC ':' with ⟨b1, r2⟩
    rw [hm1] at h
    have hd2 : r2.data = r1.data := by
      have h4 := matchC_data r1 ':'
      rw [hm1] at h4
      exact h4
    cases b1 with
    | false =>
      dsimp only at h
      cases start with
      | none =>
        injection h with h2
        subst h2
        rw [hd2, hd1]
      | some n =>
        dsimp only at h
        split at h <;> (injection h with h2; subst h2; dsimp only; rw [hd2, hd1])
    | true =>
      dsimp only at h
      cases hn2 : r2.num with
      | error e => rw [hn2] at h; simp [Bind.bind, Except.bind] at h
      | ok pr2 =>
        rw [hn2] at h
        simp only [Bind.bind, Except.bind] at h
        rcases pr2 with ⟨stop, r3⟩
        have hd3 : r3.data = r2.data := num_data hn2
        dsimp only at h
        rcases hm2 : r3.matchC ':' with ⟨b2, r4⟩
        rw [hm2] at h
        have hd4 : r4.data = r3.data := by
          have h4 := matchC_data r3 ':'
          rw [hm2] at h4
          exact h4
        cases b2 with
        | false =>
          dsimp only at h
          injection h with h2
          subst h2
          dsimp only
          rw [hd4, hd3, hd2, hd1]
        | true =>
          dsimp only at h
          cases hn3 : r4.num with
          | error e => rw [hn3] at h; simp [Bind.bind, Except.bind] at h
          | ok pr3 =>
            rw [hn3] at h
            simp only [Bind.bind, Except.bind] at h
            have hd5 : pr3.2.data = r4.data := num_data hn3
            injection h with h2
            subst h2
            dsimp only
            rw [hd5, hd4, hd3, hd2, hd1]

theorem key_data {r : Runner} {pr : KeyOrSlice × Runner}
    (h : r.key = .ok pr) : pr.2.data = r.data := by
  unfold Runner.key at h
  cases hc : r.curr? with
  | none => rw [hc] at h; simp at h
  | some c =>
    rw [hc] at h
    dsimp only at h
    split at h
    · simp at h
    · cases hs : r.slice with
      | error e => rw [hs] at h; simp [Bind.bind, Except.bind] at h
      | ok pr1 =>
        rw [hs] at h
        simp only [Bind.bind, Except.bind] at h
        have hd1 : pr1.2.data = r.data := slice_data hs
        rcases pr1 with ⟨sl, r1⟩
        dsimp only at hd1
        cases sl with
        | some s =>
          dsimp only at h
          injection h with h2
          subst h2
          exact hd1
        | none =>
          dsimp only at h
          cases hk : scanKeyChars (r1.path.length + 1) r1 with
          | error e => rw [hk] at h; simp [Bind.bind, Except.bind] at h
          | ok pr2 =>
            rw [hk] at h
            simp only [Bind.bind, Except.bind] at h
            injection h with h2
            subst h2
            dsimp only
            rw [scanKeyChars_data (r1.path.length + 1) hk, hd1]

theorem bracketQuoted_data {r : Runner} {q : Char} {pr : KeyOrSlice × Runner}
    (h : bracketQuoted r q = .ok pr) : pr.2.data = r.data := by
  unfold bracketQuoted at h
  rcases hq : scanQuoted q (r.path.length + 1) r with ⟨k, r1⟩
  rw [hq] at h
  have hd1 : r1.data = r.data := by
    have h4 := scanQuoted_data q (r.path.length + 1) r
    rw [hq] at h4
    exact h4
  dsimp only at h
  split at h
  · simp at h
  · rcases hm : r1.matchC q with ⟨b1, r2⟩
    rw [hm] at h
    have hd2 : r2.data = r1.data := by
      have h4 := matchC_data r1 q
      rw [hm] at h4
      exact h4
    cases b1 with
    | false => simp at h
    | true =>
      dsimp only at h
      cases hco : r2.consume ']' ("after " ++ toString q) with
      | error e => rw [hco] at h; simp [Bind.bind, Except.bind] at h
      | ok r3 =>
        rw [hco] at h
        simp only [Bind.bind, Except.bind] at h
        injection h with h2
        subst h2
        dsimp only
        rw [consume_data hco, hd2, hd1]

theorem bracket_data {r : Runner} {pr : KeyOrSlice × Runner}
    (h : r.bracket = .ok pr) : pr.2.data = r.data := by
  unfold Runner.bracket at h
  rcases hm : r.matchC '*' with ⟨b1, r1⟩
  rw [hm] at h
  have hd1 : r1.data = r.data := by
    have h4 := matchC_data r '*'
    rw [hm] at h4
    exact h4
  cases b1 with
  | true =>
    dsimp only at h
    cases hco : r1.consume ']' "after \x27*\x27" with
    | error e => rw [hco] at h; simp [Bind.bind, Except.bind] at h
    | ok r2 =>
      rw [hco] at h
      simp only [Bind.bind, Except.bind] at h
      injection h with h2
      subst h2
      dsimp only
      rw [consume_data hco, hd1]
  | false =>
    dsimp only at h
    rcases hm2 : r1.matchC squote with ⟨b2, r2⟩
    rw [hm2] at h
    have hd2 : r2.data = r1.data := by
      have h4 := matchC_data r1 squote
      rw [hm2] at h4
      exact h4
    cases b2 with
    | true =>
      dsimp only at h
      rw [bracketQuoted_data h, hd2, hd1]
    | false =>
      dsimp only at h
      rcases hm3 : r2.matchC dquote with ⟨b3, r3⟩
      rw [hm3] at h
      have hd3 : r3.data = r2.data := by
        have h4 := matchC_data r2 dquote
        rw [hm3] at h4
        exact h4
      cases b3 with
      | true =>
        dsimp only at h
        rw [bracketQuoted_data h, hd3, hd2, hd1]
      | false =>
        dsimp only at h
        cases hs : r3.slice with
        | error e => rw [hs] at h; simp [Bind.bind, Except.bind] at h
        | ok pr1 =>
          rw [hs] at h
          simp only [Bind.bind, Except.bind] at h
          have hd4 : pr1.2.data = r3.data := slice_data hs
          rcases pr1 with ⟨sl, r4⟩
          dsimp only at hd4
          cases sl with
          | none => simp at h
          | some s =>
            dsimp only at h
            cases hco : r4.consume ']' "after numerical subscript or slice" with
            | error e => rw [hco] at h; simp [Bind.bind, Except.bind] at h
            | ok r5 =>
              rw [hco] at h
              simp only [Bind.bind, Except.bind] at h
              injection h with h2
              subst h2
              dsimp only
              rw [consume_data hco, hd4, hd3, hd2, hd1]


theorem applyKeyOrSlice_data {k : KeyOrSlice} {r r2 : Runner}
    (h : applyKeyOrSlice k r = .ok r2) : r2.data = r.data := by
  unfold applyKeyOrSlice at h
  cases k with
  | key s =>
    injection h with h2
    subst h2
    rfl
  | slice sl =>
    dsimp only at h
    cases hs : _apply_slice r.results sl with
    | error e => rw [hs] at h; simp [Bind.bind, Except.bind] at h
    | ok res =>
      rw [hs] at h
      simp only [Bind.bind, Except.bind] at h
      injection h with h2
      subst h2
      rfl

theorem recursiveDescent_data {r r2 : Runner}
    (h : r.recursiveDescent = .ok r2) : r2.data = r.data := by
  unfold Runner.recursiveDescent at h
  rcases hm : r.matchC '[' with ⟨b1, r1⟩
  rw [hm] at h
  have hd1 : r1.data = r.data := by
    have h4 := matchC_data r '['
    rw [hm] at h4
    exact h4
  cases b1 with
  | true =>
    dsimp only at h
    cases hb : r1.bracket with
    | error e => rw [hb] at h; simp [Bind.bind, Except.bind] at h
    | ok pr =>
      rw [hb] at h
      simp only [Bind.bind, Except.bind] at h
      cases hrd : _recursive_descent_key pr.2.results pr.1 with
      | error e => rw [hrd] at h; simp [Bind.bind, Except.bind] at h
      | ok res =>
        rw [hrd] at h
        simp only [Bind.bind, Except.bind] at h
        injection h with h2
        subst h2
        dsimp only
        rw [bracket_data hb, hd1]
  | false =>
    dsimp only at h
    cases hb : r1.key with
    | error e => rw [hb] at h; simp [Bind.bind, Except.bind] at h
    | ok pr =>
      rw [hb] at h
      simp only [Bind.bind, Except.bind] at h
      cases hrd : _recursive_descent_key pr.2.results pr.1 with
      | error e => rw [hrd] at h; simp [Bind.bind, Except.bind] at h
      | ok res =>
        rw [hrd] at h
        simp only [Bind.bind, Except.bind] at h
        injection h with h2
        subst h2
        dsimp only
        rw [key_data hb, hd1]

theorem child_data : ∀ (fuel : Nat) {r r2 : Runner},
    Runner.child fuel r = .ok r2 → r2.data = r.data := by
  intro fuel
  induction fuel with
  | zero => intro r r2 h; simp [Runner.child] at h
  | succ f ih =>
    intro r r2 h
    unfold Runner.child at h
    split at h
    · injection h with h2; subst h2; rfl
    · rcases hm : r.matchC '.' with ⟨b1, r1⟩
      rw [hm] at h
      have hd1 : r1.data = r.data := by
        have h4 := matchC_data r '.'
        rw [hm] at h4
        exact h4
      cases b1 with
      | true =>
        dsimp only at h
        rcases hm2 : r1.matchC '.' with ⟨b2, r2x⟩
        rw [hm2] at h
        have hd2 : r2x.data = r1.data := by
          have h4 := matchC_data r1 '.'
          rw [hm2] at h4
          exact h4
        cases b2 with
        | true =>
          dsimp only at h
          cases hrd : r2x.recursiveDescent with
          | error e => rw [hrd] at h; simp [Bind.bind, Except.bind] at h
          | ok r3 =>
            rw [hrd] at h
            simp only [Bind.bind, Except.bind] at h
            rw [ih h, recursiveDescent_data hrd, hd2, hd1]
        | false =>
          dsimp only at h
          cases hk : r2x.key with
          | error e => rw [hk] at h; simp [Bind.bind, Except.bind] at h
          | ok kr =>
            rw [hk] at h
            simp only [Bind.bind, Except.bind] at h
            cases ha : applyKeyOrSlice kr.1 kr.2 with
            | error e => rw [ha] at h; simp [Bind.bind, Except.bind] at h
            | ok r3 =>
              rw [ha] at h
              simp only [Bind.bind, Except.bind] at h
              rw [ih h, applyKeyOrSlice_data ha, key_data hk, hd2, hd1]
      | false =>
        dsimp only at h
        rcases hm2 : r1.matchC '[' with ⟨b2, r2x⟩
        rw [hm2] at h
        have hd2 : r2x.data = r1.data := by
          have h4 := matchC_data r1 '['
          rw [hm2] at h4
          exact h4
        cases b2 with
        | true =>
          dsimp only at h
          cases hk : r2x.bracket with
          | error e => rw [hk] at h; simp [Bind.bind, Except.bind] at h
          | ok kr =>
            rw [hk] at h
            simp only [Bind.bind, Except.bind] at h
            cases ha : applyKeyOrSlice kr.1 kr.2 with
            | error e => rw [ha] at h; simp [Bind.bind, Except.bind] at h
            | ok r3 =>
              rw [ha] at h
              simp only [Bind.bind, Except.bind] at h
              rw [ih h, applyKeyOrSlice_data ha, bracket_data hk, hd2, hd1]
        | false =>
          dsimp only at h
          simp at h

/-! ### Decimal parsing and slice-grammar lemmas

Facts about scanning the decimal numeral of `n` back out of a path string,
and about the slice selector they feed into, used for the claims that
quantify over an arbitrary integer subscript. -/

theorem digitChar_isDigit {d : Nat} (h : d < 10) : (digitChar d).isDigit = true := by
  interval_cases d <;> decide

theorem digitChar_toNat {d : Nat} (h : d < 10) : (digitChar d).toNat = 48 + d := by
  interval_cases d <;> decide

theorem natDigits_ne_nil (n : Nat) : natDigits n ≠ [] := by
  rw [natDigits]
  split
  · simp
  · simp

theorem natDigits_all_digit (n : Nat) : ∀ c ∈ natDigits n, c.isDigit = true := by
  induction n using Nat.strong_induction_on with
  | _ n ih =>
    rw [natDigits]
    split
    · intro c hc
      rw [List.mem_singleton] at hc
      subst hc
      exact digitChar_isDigit (by omega)
    · intro c hc
      rw [List.mem_append] at hc
      rcases hc with hc | hc
      · exact ih (n / 10) (by omega) c hc
      · rw [List.mem_singleton] at hc
        subst hc
        exact digitChar_isDigit (by omega)

theorem digitsVal_append_singleton (ds : List Char) (c : Char) :
    digitsVal (ds ++ [c]) = 10 * digitsVal ds + (c.toNat - 48) := by
  unfold digitsVal
  rw [List.foldl_append]
  simp [List.foldl]
  omega

theorem digitsVal_natDigits (n : Nat) : digitsVal (natDigits n) = n := by
  induction n using Nat.strong_induction_on with
  | _ n ih =>
    rw [natDigits]
    split
    · rename_i h
      simp [digitsVal, List.foldl]
      rw [digitChar_toNat h]
      omega
    · rename_i h
      rw [digitsVal_append_singleton, ih (n / 10) (by omega), digitChar_toNat (by omega)]
      omega

theorem ne_of_isDigit {c c2 : Char} (h : c.isDigit = true) (h2 : c2.isDigit = false) :
    c ≠ c2 := by
  intro heq
  subst heq
  rw [h] at h2
  cases h2

theorem curr?_of_drop {p : List Char} {i : Nat} {rest : List Char}
    (h : p.drop i = rest) (d : Json) (res : List Json) :
    (Runner.mk d p i res).curr? = rest.head? := by
  rw [Runner.curr?, ← h, ← List.get?_zero, List.get?_drop]
  simp

theorem drop_succ_of_cons {p : List Char} {i : Nat} {c : Char} {rest : List Char}
    (h : p.drop i = c :: rest) : p.drop (i + 1) = rest := by
  have h2 := List.drop_drop 1 i p
  rw [h] at h2
  simp at h2
  exact h2.symm


theorem scanNumChars_spec (d : Json) (res : List Json) (p : List Char) :
    ∀ (ds post : List Char) (i fuel : Nat),
      p.drop i = ds ++ post →
      (∀ c ∈ ds, c.isDigit = true) →
      (∀ c, post.head? = some c → c.isDigit = false) →
      ds.length < fuel →
      scanNumChars fuel (Runner.mk d p i res) = (ds, Runner.mk d p (i + ds.length) res) := by
  intro ds
  induction ds with
  | nil =>
    intro post i fuel hdrop hds hpost hfuel
    cases fuel with
    | zero => omega
    | succ f =>
      unfold scanNumChars
      rw [curr?_of_drop hdrop]
      cases hp : post.head? with
      | none =>
        simp only [List.nil_append]
        rw [hp]
        simp
      | some c =>
        simp only [List.nil_append] at hp ⊢
        rw [hp]
        dsimp only
        rw [hpost c hp]
        simp
  | cons c ds2 ih =>
    intro post i fuel hdrop hds hpost hfuel
    cases fuel with
    | zero => simp at hfuel
    | succ f =>
      unfold scanNumChars
      rw [curr?_of_drop hdrop]
      dsimp only [List.cons_append, List.head?]
      rw [hds c (by simp)]
      have hdrop2 : p.drop (i + 1) = ds2 ++ post := drop_succ_of_cons (by simpa using hdrop)
      have ih2 := ih post (i + 1) f hdrop2 (fun c2 hc2 => hds c2 (by simp [hc2])) hpost (by simp at hfuel; omega)
      rw [show (Runner.mk d p i res).advance = Runner.mk d p (i + 1) res from rfl, ih2]
      simp
      omega


theorem num_spec (d : Json) (res : List Json) (p : List Char) (n : Int) (post : List Char)
    (i : Nat) (hdrop : p.drop i = intChars n ++ post)
    (hpost : ∀ c, post.head? = some c → c.isDigit = false) :
    Runner.num (Runner.mk d p i res) =
      .ok (some n, Runner.mk d p (i + (intChars n).length) res) := by
  unfold Runner.num
  by_cases hn : n < 0
  · rw [intChars, if_pos hn] at hdrop ⊢
    have hc : (Runner.mk d p i res).curr? = some '-' := by
      rw [curr?_of_drop hdrop]
      rfl
    rw [Runner.matchC, hc, if_pos rfl]
    have hdrop2 : p.drop (i + 1) = natDigits (-n).toNat ++ post :=
      drop_succ_of_cons (by simpa using hdrop)
    obtain ⟨c0, t, hct⟩ : ∃ c0 t, natDigits (-n).toNat = c0 :: t := by
      cases h : natDigits (-n).toNat with
      | nil => exact absurd h (natDigits_ne_nil _)
      | cons a b => exact ⟨a, b, rfl⟩
    have hlen : (natDigits (-n).toNat).length < p.length + 1 := by
      have h5 := congrArg List.length hdrop2
      simp [List.length_drop] at h5
      omega
    have hsc := scanNumChars_spec d res p (natDigits (-n).toNat) post (i + 1)
      (p.length + 1) hdrop2 (natDigits_all_digit _) hpost hlen
    dsimp only [Runner.advance]
    rw [hsc]
    dsimp only
    rw [hct]
    dsimp only [List.isEmpty]
    rw [← hct, digitsVal_natDigits]
    have hval : Int.ofNat ((-n).toNat) = -n := Int.toNat_of_nonneg (by omega)
    rw [if_pos rfl, hval, neg_neg]
    have hidx : i + 1 + (natDigits (-n).toNat).length =
        i + ('-' :: natDigits (-n).toNat).length := by
      simp
      omega
    rw [hidx]
    rfl
  · rw [intChars, if_neg hn] at hdrop ⊢
    obtain ⟨c0, t, hct⟩ : ∃ c0 t, natDigits n.toNat = c0 :: t := by
      cases h : natDigits n.toNat with
      | nil => exact absurd h (natDigits_ne_nil _)
      | cons a b => exact ⟨a, b, rfl⟩
    have hc : (Runner.mk d p i res).curr? = some c0 := by
      rw [curr?_of_drop hdrop, hct]
      rfl
    have hc0d : c0.isDigit = true := natDigits_all_digit n.toNat c0 (by rw [hct]; simp)
    have hcne : some c0 ≠ some '-' := by
      intro heq
      injection heq with heq2
      exact ne_of_isDigit hc0d (by decide) heq2
    rw [Runner.matchC, hc, if_neg hcne]
    have hlen : (natDigits n.toNat).length < p.length + 1 := by
      have h5 := congrArg List.length hdrop
      simp [List.length_drop] at h5
      omega
    have hsc := scanNumChars_spec d res p (natDigits n.toNat) post i
      (p.length + 1) hdrop (natDigits_all_digit _) hpost hlen
    dsimp only
    rw [hsc]
    dsimp only
    rw [hct]
    dsimp only [List.isEmpty]
    rw [← hct, digitsVal_natDigits]
    have hval : Int.ofNat n.toNat = n := Int.toNat_of_nonneg (by omega)
    rw [if_neg (by decide), hval]
    rfl


theorem lt_length_of_drop_cons {p : List Char} {i : Nat} {c : Char} {rest : List Char}
    (hdrop : p.drop i = c :: rest) : i < p.length := by
  have h5 := congrArg List.length hdrop
  simp [List.length_drop] at h5
  omega

theorem matchC_hit {p : List Char} {i : Nat} {c : Char} {rest : List Char}
    (hdrop : p.drop i = c :: rest) (d : Json) (res : List Json) :
    (Runner.mk d p i res).matchC c = (true, Runner.mk d p (i + 1) res) := by
  rw [Runner.matchC, curr?_of_drop hdrop]
  simp [Runner.advance]

theorem matchC_miss {p : List Char} {i : Nat} {c c2 : Char} {rest : List Char}
    (hdrop : p.drop i = c :: rest) (hne : c ≠ c2) (d : Json) (res : List Json) :
    (Runner.mk d p i res).matchC c2 = (false, Runner.mk d p i res) := by
  rw [Runner.matchC, curr?_of_drop hdrop]
  simp [hne]

theorem consume_hit {p : List Char} {i : Nat} {c : Char} {rest : List Char}
    (hdrop : p.drop i = c :: rest) (d : Json) (res : List Json) (wh : String) :
    (Runner.mk d p i res).consume c wh = .ok (Runner.mk d p (i + 1) res) := by
  rw [Runner.consume]
  have hlt := lt_length_of_drop_cons hdrop
  have hae : (Runner.mk d p i res).atEnd = false := by
    rw [Runner.atEnd]
    simp
    omega
  rw [hae]
  simp only [Bool.false_eq_true, if_false]
  rw [matchC_hit hdrop]

theorem intChars_head (n : Int) :
    ∃ c0 t, intChars n = c0 :: t ∧ (c0 = '-' ∨ c0.isDigit = true) := by
  rw [intChars]
  split
  · exact ⟨'-', _, rfl, Or.inl rfl⟩
  · cases h : natDigits n.toNat with
    | nil => exact absurd h (natDigits_ne_nil _)
    | cons a b =>
      exact ⟨a, b, rfl, Or.inr (natDigits_all_digit n.toNat a (by rw [h]; simp))⟩

theorem slice_spec_pair (d : Json) (res : List Json) (p : List Char) (n m : Int)
    (post : List Char) (i : Nat)
    (hdrop : p.drop i = intChars n ++ ':' :: intChars m ++ post)
    (hpost : ∀ c, post.head? = some c → c.isDigit = false)
    (hpost2 : post.head? ≠ some ':') :
    Runner.slice (Runner.mk d p i res) =
      .ok (some (PySlice.mk (some n) (some m) none),
        Runner.mk d p (i + ((intChars n).length + 1 + (intChars m).length)) res) := by
  have h1 := num_spec d res p n (':' :: intChars m ++ post) i (by simpa using hdrop)
    (by intro c hc; simp at hc; subst hc; decide)
  have hdrop2 : p.drop (i + (intChars n).length) = ':' :: intChars m ++ post := by
    have h6 := List.drop_drop (intChars n).length i p
    rw [hdrop] at h6
    rw [← h6]
    simp [List.drop_left]
  have h2 := matchC_hit hdrop2 d res
  have hdrop3 : p.drop (i + (intChars n).length + 1) = intChars m ++ post :=
    drop_succ_of_cons hdrop2
  have h3 := num_spec d res p m post (i + (intChars n).length + 1) hdrop3 hpost
  have hdrop4 : p.drop (i + (intChars n).length + 1 + (intChars m).length) = post := by
    have h6 := List.drop_drop (intChars m).length (i + (intChars n).length + 1) p
    rw [hdrop3] at h6
    rw [← h6]
    simp [List.drop_left]
  have h4 : (Runner.mk d p (i + (intChars n).length + 1 + (intChars m).length) res).matchC ':' =
      (false, Runner.mk d p (i + (intChars n).length + 1 + (intChars m).length) res) := by
    rw [Runner.matchC, curr?_of_drop hdrop4]
    simp [hpost2]
  rw [Runner.slice]
  simp only [h1, Bind.bind, Except.bind]
  try dsimp only
  rw [h2]
  try dsimp only
  simp only [h3, Except.bind]
  try dsimp only
  rw [h4]
  try dsimp only
  have hidx : i + (intChars n).length + 1 + (intChars m).length =
      i + ((intChars n).length + 1 + (intChars m).length) := by omega
  rw [hidx]


theorem bracket_spec_pair (d : Json) (res : List Json) (p : List Char) (n m : Int) (i : Nat)
    (hdrop : p.drop i = intChars n ++ ':' :: intChars m ++ [']']) :
    Runner.bracket (Runner.mk d p i res) =
      .ok (.slice (PySlice.mk (some n) (some m) none),
        Runner.mk d p (i + ((intChars n).length + 1 + (intChars m).length) + 1) res) := by
  obtain ⟨c0, t, hct, hc0⟩ := intChars_head n
  have hdropc : p.drop i = c0 :: (t ++ ':' :: intChars m ++ [']']) := by
    rw [hdrop, hct]
    simp
  have hne : ∀ c2 : Char, c2.isDigit = false → c2 ≠ '-' → c0 ≠ c2 := by
    intro c2 h2 h3 heq
    rcases hc0 with hc0 | hc0
    · subst heq
      exact h3 hc0
    · exact ne_of_isDigit hc0 h2 heq
  rw [Runner.bracket]
  rw [matchC_miss hdropc (hne '*' (by decide) (by decide)) d res]
  try dsimp only
  rw [matchC_miss hdropc (hne squote (by decide) (by decide)) d res]
  try dsimp only
  rw [matchC_miss hdropc (hne dquote (by decide) (by decide)) d res]
  try dsimp only
  rw [slice_spec_pair d res p n m [']'] i hdrop
    (by intro c hc; simp at hc; subst hc; decide) (by simp)]
  simp only [Bind.bind, Except.bind]
  try dsimp only
  have hdrop4 : p.drop (i + ((intChars n).length + 1 + (intChars m).length)) = [']'] := by
    have h6 := List.drop_drop ((intChars n).length + 1 + (intChars m).length) i p
    rw [hdrop] at h6
    rw [← h6]
    rw [show (intChars n).length + 1 + (intChars m).length =
      ((intChars n).length + (1 + (intChars m).length)) from by omega]
    rw [← List.drop_drop]
    simp [List.drop_left]
    rw [show 1 + (intChars m).length = (intChars m).length + 1 from by omega]
    rw [← List.drop_drop]
    simp [List.drop_left]
  rw [consume_hit hdrop4 d res]

theorem pySeqSlice_same (xs : List Json) (n : Int) :
    pySeqSlice xs (PySlice.mk (some n) (some n) none) = .ok [] := by
  rw [pySeqSlice]
  simp only [show (PySlice.mk (some n) (some n) none).step = none from rfl]
  rw [if_neg (by simp)]
  simp only [sliceBounds]
  dsimp only
  rw [gatherUp]
  simp

theorem apply_slice_same (xs : List Json) (n : Int) :
    _apply_slice [Json.arr xs] (PySlice.mk (some n) (some n) none) = .ok [] := by
  rw [_apply_slice]
  simp [pySeqSlice_same, _apply_slice, Bind.bind, Except.bind]


/-! ## Claims -/

/-- Claim C1: the claim states that `query` either raises `ParseError` or
returns a list, with no other failure mode reachable.  The code violates
this: a zero-step slice applied to an array raises `ValueError` (Python
list slicing), and a segment starting with a character other than `.` or
`[` trips `assert False` in `child`, raising `AssertionError`.  This
theorem evaluates the code at two such failing inputs. -/
theorem claim_C1 :
    query (Json.arr [Json.num 1]) "$[::0]" =
        .error (.valueError "slice step cannot be zero") ∧
      query Json.null "$y" =
        .error (.assertError "Expected \x27.\x27 or \x27[\x27 at pos: 2, got: \x27y\x27") :=
  ⟨rfl, rfl⟩

/-- Claim C2: the claim states that a path whose first segment starts with
a character other than `.` or `[` raises `ParseError`.  The code instead
trips `assert False` in `child`, raising `AssertionError` (for every
`data`): this theorem evaluates `query(data, "$x")`. -/
theorem claim_C2 (data : Json) :
    query data "$x" =
      .error (.assertError "Expected \x27.\x27 or \x27[\x27 at pos: 2, got: \x27x\x27") := by
  have h : query data "$x" = query Json.null "$x" := rfl
  rw [h]
  exact rfl

/-- Claim C3: the claim states `parse(path)` raises `ParseError` iff
`query(data, path)` does, independent of `data`.  The code violates this
at `path = "$[::0].["`: with the placeholder object root, `parse` survives
the zero-step slice (no array input, so `ValueError` is never triggered)
and then hits the `ParseError` of the `.[` segment, while with an array
root `query` raises `ValueError` at the slice application and never
reaches that `ParseError`. -/
theorem claim_C3 :
    parse "$[::0].[" =
        .error (.parseError "Key name can\x27t start with a \x27[\x27 (pos: 9)") ∧
      query (Json.arr [Json.num 1]) "$[::0].[" =
        .error (.valueError "slice step cannot be zero") :=
  ⟨rfl, rfl⟩

/-- Claim C5: a bare numeric subscript `n` (a parsed number with no colon
following) is normalized by `slice` to `Slice(n, n+1, None)`, except
`n = -1` which becomes `Slice(-1, None, None)`; consequently
`query([1,2,3], "$[-1]") == [3]`. -/
theorem claim_C5 :
    (∀ (r r2 : Runner) (n : Int),
        r.num = .ok (some n, r2) → r2.curr? ≠ some ':' →
        r.slice = .ok
          (some (if n = -1 then PySlice.mk (some (-1)) none none
            else PySlice.mk (some n) (some (n + 1)) none), r2)) ∧
      query (Json.arr [Json.num 1, Json.num 2, Json.num 3]) "$[-1]" = .ok [Json.num 3] := by
  constructor
  · intro r r2 n h h2
    simp only [Runner.slice, h, Runner.matchC, Bind.bind, Except.bind]
    rw [if_neg h2]
    split
    · rename_i heq
      simp at heq
    · rename_i r4 heq
      injection heq with h3 h4
      subst h4
      split <;> rfl
  · rfl

/-- Witness for C5: parsing the bare subscript `-1]` from position 0 yields
the number `-1` with a `]` (not `:`) following, and `slice` then produces
`Slice(-1, None, None)`. -/
theorem claim_C5_witness :
    Runner.slice ⟨Json.null, "-1]".data, 0, []⟩ =
      .ok (some (PySlice.mk (some (-1)) none none), ⟨Json.null, "-1]".data, 2, []⟩) := by
  have h := claim_C5.1 ⟨Json.null, "-1]".data, 0, []⟩ ⟨Json.null, "-1]".data, 2, []⟩ (-1) rfl
    (by decide)
  simpa using h

/-- Claim C6: `query(data, "$")` returns exactly `[data]` for every
`data`. -/
theorem claim_C6 (data : Json) : query data "$" = .ok [data] := rfl

/-- Claim C7: applying a `Key(name)` selector (any name other than the
wildcard) emits, in input order, the value at `name` for each object input
containing it, and silently skips arrays and scalars; inputs without a
match contribute nothing, and no error is possible (`_apply_key` is
total). -/
theorem claim_C7 (rs : List Json) (k : String) (h : k ≠ "*") :
    _apply_key rs k = rs.flatMap (keyMatches k) := by
  induction rs with
  | nil => simp [_apply_key, h]
  | cons r t ih =>
    simp only [_apply_key, if_neg h, List.foldr] at ih ⊢
    cases r <;> simp [keyMatches, ih]
    rename_i ms
    cases h2 : dictGet ms k <;> simp [h2]

/-- Witness for C7 at a concrete result set mixing objects (with and
without the key), an array and a scalar. -/
theorem claim_C7_witness :
    _apply_key [Json.obj [("a", Json.num 1)], Json.arr [Json.num 9], Json.num 2,
      Json.obj [("b", Json.num 3)], Json.obj [("a", Json.num 4)]] "a" =
      [Json.num 1, Json.num 4] :=
  (claim_C7 _ "a" (by decide)).trans rfl

/-- Claim C10: a bracket-quoted key may be empty: `query(data, "$[\x27\x27]")`
always succeeds and returns the values stored under the empty-string key
of each object in the result set (here the single root), the empty list
when there is none. -/
theorem claim_C10 (data : Json) : query data "$[\x27\x27]" = .ok (keyMatches "" data) := by
  have h : query data "$[\x27\x27]" = .ok (_apply_key [data] "") := rfl
  rw [h]
  cases data <;> simp [_apply_key, keyMatches]
  rename_i ms
  cases h2 : dictGet ms "" <;> simp [h2, Option.toList]

/-- Claim C9: the query never mutates the caller-supplied tree: in the
state-passing embedding, the `data` field of the final runner state equals
the value the caller passed in (every operation only ever reads it). -/
theorem claim_C9 (data : Json) (path : String) (r2 : Runner)
    (h : queryRun data path = .ok r2) : r2.data = data := by
  unfold queryRun at h
  dsimp only at h
  cases hco : Runner.consume ⟨data, path.data, 0, [data]⟩ '$' "at the beginning of JSONPath" with
  | error e => rw [hco] at h; simp [Bind.bind, Except.bind] at h
  | ok r1 =>
    rw [hco] at h
    simp only [Bind.bind, Except.bind] at h
    rw [child_data (path.data.length + 1) h, consume_data hco]

/-- Witness for C9 at the root query `$` over `null`. -/
theorem claim_C9_witness :
    (⟨Json.null, "$".data, 1, [Json.null]⟩ : Runner).data = Json.null :=
  claim_C9 Json.null "$" ⟨Json.null, "$".data, 1, [Json.null]⟩ rfl

/-- Claim C8: an equal-bounds slice selects nothing: for every array and
every integer `n`, `query(arr, "$[n:n]")` (with `n` printed in decimal)
returns the empty list; in particular `query([1,2,3,4], "$[0:0]") == []`. -/
theorem claim_C8 :
    (∀ (xs : List Json) (n : Int),
      query (Json.arr xs) ("$[" ++ intStr n ++ ":" ++ intStr n ++ "]") = .ok []) ∧
      query (Json.arr [Json.num 1, Json.num 2, Json.num 3, Json.num 4]) "$[0:0]" = .ok [] := by
  constructor
  · intro xs n
    have hP : ("$[" ++ intStr n ++ ":" ++ intStr n ++ "]").data =
        '$' :: '[' :: (intChars n ++ ':' :: intChars n ++ [']']) := by
      simp [String.data_append, intStr]
    unfold query queryRun
    dsimp only
    have hdrop0 : ("$[" ++ intStr n ++ ":" ++ intStr n ++ "]").data.drop 0 =
        '$' :: ('[' :: (intChars n ++ ':' :: intChars n ++ [']'])) := by
      rw [hP]
      rfl
    rw [consume_hit hdrop0]
    simp only [Bind.bind, Except.bind]
    have hdrop1 : ("$[" ++ intStr n ++ ":" ++ intStr n ++ "]").data.drop 1 =
        '[' :: (intChars n ++ ':' :: intChars n ++ [']']) := drop_succ_of_cons hdrop0
    have hdrop2 : ("$[" ++ intStr n ++ ":" ++ intStr n ++ "]").data.drop 2 =
        intChars n ++ ':' :: intChars n ++ [']'] := drop_succ_of_cons hdrop1
    rw [Runner.child]
    have hae : (Runner.mk (Json.arr xs) ("$[" ++ intStr n ++ ":" ++ intStr n ++ "]").data 1
        [Json.arr xs]).atEnd = false := by
      rw [Runner.atEnd]
      have := lt_length_of_drop_cons hdrop1
      simp
      try omega
    rw [hae]
    simp only [Bool.false_eq_true, if_false]
    rw [matchC_miss hdrop1 (by decide)]
    try dsimp only
    rw [matchC_hit hdrop1]
    try dsimp only
    rw [bracket_spec_pair (Json.arr xs) [Json.arr xs]
      ("$[" ++ intStr n ++ ":" ++ intStr n ++ "]").data n n 2 hdrop2]
    simp only [Bind.bind, Except.bind]
    try dsimp only
    rw [applyKeyOrSlice]
    try dsimp only
    rw [apply_slice_same]
    simp only [Bind.bind, Except.bind]
    try dsimp only
    have hlen : ("$[" ++ intStr n ++ ":" ++ intStr n ++ "]").data.length =
        2 + ((intChars n).length + 1 + (intChars n).length) + 1 := by
      rw [hP]
      simp
      try omega
    obtain ⟨f2, hf2⟩ : ∃ f2, ("$[" ++ intStr n ++ ":" ++ intStr n ++ "]").data.length = f2 + 1 :=
      ⟨_, hlen⟩
    rw [hf2, Runner.child]
    have hae2 : (Runner.mk (Json.arr xs) ("$[" ++ intStr n ++ ":" ++ intStr n ++ "]").data
        (2 + ((intChars n).length + 1 + (intChars n).length) + 1) []).atEnd = true := by
      rw [Runner.atEnd, hlen]
      simp
    rw [hae2]
    simp
  · rfl


theorem preKeyArr_append (k : String) (xs ys : List Json) :
    preKeyArr k (xs ++ ys) = preKeyArr k xs ++ preKeyArr k ys := by
  induction xs with
  | nil => simp [preKeyArr]
  | cons x t ih => simp [preKeyArr, ih]

theorem preKeyArr_map_snd (k : String) (ms : List (String × Json)) :
    preKeyArr k (ms.map Prod.snd) = preKeyObj k ms := by
  induction ms with
  | nil => simp [preKeyArr, preKeyObj]
  | cons m t ih =>
    obtain ⟨ky, v⟩ := m
    simp [preKeyArr, preKeyObj, ih]

theorem rdLoop_key_spec (k : String) (hk : k ≠ "*") :
    ∀ (fuel : Nat) (todo acc : List Json), Json.szArr todo < fuel →
      rdLoop (.key k) fuel todo acc = .ok (acc ++ preKeyArr k todo) := by
  intro fuel
  induction fuel with
  | zero => intro todo acc h; omega
  | succ f ih =>
    intro todo acc h
    have hkey : ¬(KeyOrSlice.key k = KeyOrSlice.key "*") := by
      intro h2
      injection h2 with h3
      exact hk h3
    cases todo with
    | nil => simp [rdLoop, preKeyArr]
    | cons curr rest =>
      simp only [Json.szArr] at h
      cases curr with
      | null =>
        rw [rdLoop.eq_7 _ acc f _ rest (by intro ms h2; cases h2) (by intro es h2; cases h2),
          if_neg hkey]
        rw [ih rest acc (by simp only [Json.sz] at h; omega)]
        simp [preKeyArr, preKey]
      | num v =>
        rw [rdLoop.eq_7 _ acc f _ rest (by intro ms h2; cases h2) (by intro es h2; cases h2),
          if_neg hkey]
        rw [ih rest acc (by simp only [Json.sz] at h; omega)]
        simp [preKeyArr, preKey]
      | obj ms =>
        rw [rdLoop.eq_3, if_neg hkey]
        simp only [Json.sz] at h
        cases h2 : dictGet ms k with
        | some v =>
          simp only [h2]
          try dsimp only
          rw [ih (ms.map Prod.snd ++ rest) (acc ++ [v]) (by
            simp only [Json.szArr_append, Json.szArr_map_snd]
            omega)]
          simp [preKeyArr, preKey, h2, preKeyArr_append, preKeyArr_map_snd]
        | none =>
          simp only [h2]
          try dsimp only
          rw [ih (ms.map Prod.snd ++ rest) acc (by
            simp only [Json.szArr_append, Json.szArr_map_snd]
            omega)]
          simp [preKeyArr, preKey, h2, preKeyArr_append, preKeyArr_map_snd]
      | arr es =>
        rw [rdLoop.eq_6, if_neg hkey]
        simp only [Json.sz] at h
        rw [ih (es ++ rest) acc (by
          simp only [Json.szArr_append]
          omega)]
        simp [preKeyArr, preKey, preKeyArr_append]

/-- Claim C4: a `RecursiveDescent(Key(name))` segment emits matches in
depth-first pre-order over each starting node: a node\x27s own match is
collected before matches found in its descendants, an object\x27s
descendants are its values in key order, an array\x27s are its items in
index order (the traversal `preKey` is exactly that description); in
particular the nested-key example from the specification. -/
theorem claim_C4 :
    (∀ (rs : List Json) (k : String), k ≠ "*" →
      _recursive_descent_key rs (.key k) = .ok (preKeyArr k rs)) ∧
      query (Json.obj [("a", Json.obj [("b", Json.obj [("a", Json.num 1)])])]) "$..a" =
        .ok [Json.obj [("b", Json.obj [("a", Json.num 1)])], Json.num 1] := by
  constructor
  · intro rs k hk
    have h := rdLoop_key_spec k hk (Json.szArr rs + 1) rs [] (by omega)
    simpa using h
  · rfl

/-- Witness for C4: descending for key `a` from an object whose matched
value itself contains another `a` collects the outer match before the inner
one. -/
theorem claim_C4_witness :
    _recursive_descent_key
      [Json.obj [("a", Json.obj [("a", Json.num 2)]), ("b", Json.num 3)]]
      (.key "a") =
      .ok [Json.obj [("a", Json.num 2)], Json.num 2] :=
  (claim_C4.1 _ "a" (by decide)).trans rfl

end JsonPath
